import Mathlib

/-!
Verification development for the Microsoft-Rewards-Farmer repository,
covering the scheduling-and-orchestration subsystem:

* `Util.chunkArray` and `Util.humanizedWait` (src/util/Utils.ts),
* `createAccountResult` / `createFinalSummary` (src/util/FinalWebhook.ts),
* the `DailyScheduler` state machine (src/util/Scheduler.ts),
* the multi-pass orchestrator `runTasks` / `runAllAccounts` and the
  pass-1 outcome capture in `Desktop` (src/index.ts).

Machine integers of the source (JS numbers used as integers) are modelled
as `Int`/`Nat`; the fractional quantities of `humanizedWait` are modelled
as `Rat`; JS exceptions are modelled with `Except String`.
-/

set_option maxRecDepth 4000

/-! ## Util (src/util/Utils.ts) -/

/-- Fuel-driven worker for `chunkArray`.  Mirrors the source loop
`for (let i = 0; i < arr.length; i += chunkSize) chunks.push(arr.slice(i, i + chunkSize))`:
each step emits `l.take cs` and continues on `l.drop cs`.  The fuel is
instantiated with `arr.length`, which suffices whenever `1 ≤ cs`. -/
def chunkGo {α : Type} (cs : Nat) : Nat → List α → List (List α)
  | _, [] => []
  | 0, _ :: _ => []
  | fuel + 1, a :: rest => ((a :: rest).take cs) :: chunkGo cs fuel ((a :: rest).drop cs)

/-- `Util.chunkArray(arr, numChunks)` from the source:
`chunkSize = Math.ceil(arr.length / numChunks)` and contiguous slices of
that size.  For `numChunks = 0` the JS code computes `Infinity` as the
chunk size, producing a single chunk holding the whole (nonempty) array. -/
def chunkArray {α : Type} (arr : List α) (numChunks : Nat) : List (List α) :=
  if numChunks = 0 then (if arr.isEmpty then [] else [arr])
  else chunkGo ((arr.length + numChunks - 1) / numChunks) arr.length arr

/-- JS `Math.round`: round half towards positive infinity, `⌊x + 1/2⌋`. -/
def jsRound (x : Rat) : Int := ⌊x + 1 / 2⌋

/-- `Util.humanizedWait(baseMs, variationPercent)` from the source, as the
wait value it computes:
`variation = baseMs * (variationPercent / 100)`,
`actualWait = baseMs + (Math.random() - 0.5) * variation`,
`clampedWait = Math.max(100, Math.round(actualWait))`.
The random draw `Math.random()` is the explicit parameter `r`. -/
def humanizedWait (baseMs variationPercent r : Rat) : Int :=
  let variation := baseMs * (variationPercent / 100)
  let actualWait := baseMs + (r - 1 / 2) * variation
  max 100 (jsRound actualWait)

/-! ## FinalWebhook (src/util/FinalWebhook.ts) -/

/-- `AccountResult` from src/interface/FinalSummary.ts. -/
structure AccountResult where
  email : String
  pointsBefore : Int
  pointsAfter : Int
  pointsGained : Int
  tasksCompleted : Nat
  executionDuration : Int
  success : Bool
  errorMessage : Option String
  deriving Repr, DecidableEq

/-- `createAccountResult` from the source: builds the record and derives
`pointsGained = Math.max(0, pointsAfter - pointsBefore)`. -/
def createAccountResult (email : String) (pointsBefore pointsAfter : Int)
    (tasksCompleted : Nat) (executionDuration : Int) (success : Bool)
    (errorMessage : Option String) : AccountResult :=
  { email := email
    pointsBefore := pointsBefore
    pointsAfter := pointsAfter
    pointsGained := max 0 (pointsAfter - pointsBefore)
    tasksCompleted := tasksCompleted
    executionDuration := executionDuration
    success := success
    errorMessage := errorMessage }

/-- `FinalSummary` from src/interface/FinalSummary.ts (start/end instants
as epoch milliseconds). -/
structure FinalSummary where
  totalAccounts : Nat
  successfulAccounts : Nat
  failedAccounts : Nat
  totalPointsGained : Int
  retryPassesUsed : Int
  totalExecutionTime : Int
  startTime : Int
  endTime : Int
  accountResults : List AccountResult
  deriving Repr, DecidableEq

/-- `createFinalSummary` from the source:
`successfulAccounts = results.filter(a => a.success).length`,
`failedAccounts = results.length - successfulAccounts`,
`totalPointsGained = results.reduce((sum, a) => sum + a.pointsGained, 0)`,
`totalExecutionTime = Math.round((endTime - startTime) / 1000)`. -/
def createFinalSummary (accountResults : List AccountResult)
    (retryPassesUsed : Int) (startTime endTime : Int) : FinalSummary :=
  let successfulAccounts := (accountResults.filter (fun a => a.success)).length
  let failedAccounts := accountResults.length - successfulAccounts
  let totalPointsGained := (accountResults.map (fun a => a.pointsGained)).sum
  { totalAccounts := accountResults.length
    successfulAccounts := successfulAccounts
    failedAccounts := failedAccounts
    totalPointsGained := totalPointsGained
    retryPassesUsed := retryPassesUsed
    totalExecutionTime := jsRound (((endTime - startTime : Int) : Rat) / 1000)
    startTime := startTime
    endTime := endTime
    accountResults := accountResults }

/-! ## DailyScheduler (src/util/Scheduler.ts) -/

/-- The `SchedulerState` record persisted by the scheduler.  The optional
field `lastFailureTime?: number` is `Option Int`; instants are epoch
milliseconds. -/
structure SchedulerState where
  lastRunDate : String
  nextRunTime : Int
  consecutiveFailures : Nat
  isRunning : Bool
  lastFailureTime : Option Int
  deriving Repr, DecidableEq

/-- The default state built at the top of `loadState`. -/
def defaultState : SchedulerState :=
  { lastRunDate := ""
    nextRunTime := 0
    consecutiveFailures := 0
    isRunning := false
    lastFailureTime := none }

/-- A parsed state file: every field optional, as JSON supplies any subset.
The spread `{ ...defaultState, ...JSON.parse(stateData) }` fills the rest. -/
structure PartialState where
  lastRunDate : Option String
  nextRunTime : Option Int
  consecutiveFailures : Option Nat
  isRunning : Option Bool
  lastFailureTime : Option (Option Int)
  deriving Repr, DecidableEq

/-- What the scheduler finds on disk: no file, a file `JSON.parse` rejects,
or a parsed record. -/
inductive StateFile where
  | missing : StateFile
  | malformed : StateFile
  | parsed : PartialState → StateFile
  deriving Repr, DecidableEq

/-- `DailyScheduler.loadState` from the source.  A missing file returns the
default state; a parse failure is caught, logged as a warning and returns
the default state; otherwise the parsed fields are spread over the
defaults.  The function is total: it never propagates an exception. -/
def loadState : StateFile → SchedulerState
  | .missing => defaultState
  | .malformed => defaultState
  | .parsed p =>
    { lastRunDate := p.lastRunDate.getD defaultState.lastRunDate
      nextRunTime := p.nextRunTime.getD defaultState.nextRunTime
      consecutiveFailures := p.consecutiveFailures.getD defaultState.consecutiveFailures
      isRunning := p.isRunning.getD defaultState.isRunning
      lastFailureTime := p.lastFailureTime.getD defaultState.lastFailureTime }

/-- `config.scheduler.retryOnFailure`. -/
structure RetryConfig where
  enabled : Bool
  maxRetries : Nat
  retryDelayMinutes : Int
  deriving Repr, DecidableEq

/-- `config.scheduler`.  `dailyRunTime` is carried pre-parsed as the
`hours`/`minutes` pair produced by `dailyRunTime.split(':').map(Number)`;
the `HH:MM` regex `^([01]?[0-9]|2[0-3]):[0-5][0-9]$` accepts exactly the
strings whose parse satisfies `hours ≤ 23 ∧ minutes ≤ 59`. -/
structure SchedulerConfig where
  enabled : Bool
  hours : Nat
  minutes : Nat
  timezone : String
  randMin : Int
  randMax : Int
  retryOnFailure : RetryConfig
  deriving Repr, DecidableEq

/-- `DailyScheduler.validateConfig` from the source: the `dailyRunTime`
regex check (represented on the parsed hours/minutes) and
`randomDelayMinutes.min < randomDelayMinutes.max`. -/
def validateConfig (cfg : SchedulerConfig) : Bool :=
  (cfg.hours ≤ 23 && cfg.minutes ≤ 59) && (cfg.randMin < cfg.randMax)

/-- One hour in milliseconds. -/
def hourMs : Int := 60 * 60 * 1000

/-- `DailyScheduler.getConfiguredTimezoneOffset` from the source, with the
ambient `new Date()` made explicit: `month` is the 0-indexed
`now.getMonth()` and `localOffsetMin` is the host `getTimezoneOffset()`
value in minutes.  The switch statement declares `const now` inside the
`'Europe/Paris'`/`'CET'` case and reads it in the `'America/New_York'`/
`'EST'` case; the cases share one block scope, so entering the switch at
the New York case reads `now` inside its temporal dead zone and throws a
`ReferenceError`, modelled as `Except.error`.  Unrecognized names log a
warning and fall back to the negated host offset. -/
def getConfiguredTimezoneOffset (tz : String) (month : Nat) (localOffsetMin : Int) :
    Except String Int :=
  if tz = "UTC" then .ok 0
  else if tz = "Europe/Paris" || tz = "CET" then
    let isJuly := month == 6
    let isDST := isJuly || (month ≥ 2 && month ≤ 9)
    .ok (if isDST then -2 * hourMs else -1 * hourMs)
  else if tz = "America/New_York" || tz = "EST" then
    .error "ReferenceError: cannot access variable now before initialization"
  else
    .ok (-localOffsetMin * 60 * 1000)

/-- `DailyScheduler.getScheduledTimeForDate` from the source, relative to
an explicit clock model: the host local wall clock of instant `t` is
`t + localOffsetMin * 60000`, and `localMidnight` is the local-clock
millisecond value of midnight of the target date.  `setHours(h, m, 0, 0)`
yields the instant whose local clock reads `localMidnight + hm`, i.e.
`localMidnight + hm - localOffsetMin * 60000`, and the configured timezone
offset is added. -/
def getScheduledTimeForDate (cfg : SchedulerConfig) (localMidnight : Int)
    (localOffsetMin : Int) (month : Nat) : Except String Int :=
  match getConfiguredTimezoneOffset cfg.timezone month localOffsetMin with
  | .error e => .error e
  | .ok tzOff =>
    .ok (localMidnight + ((cfg.hours : Int) * hourMs + (cfg.minutes : Int) * 60 * 1000)
      - localOffsetMin * 60 * 1000 + tzOff)

/-- Local midnight of the calendar day containing instant `now` (for
nonnegative local clock values): the local wall clock truncated to a
multiple of a day, as produced by `new Date()` + `setHours`. -/
def localDayStart (now : Int) (localOffsetMin : Int) : Int :=
  ((now + localOffsetMin * 60 * 1000) / 86400000) * 86400000

/-- `DailyScheduler.getTodayScheduledTime`. -/
def getTodayScheduledTime (cfg : SchedulerConfig) (now localOffsetMin : Int)
    (month : Nat) : Except String Int :=
  getScheduledTimeForDate cfg (localDayStart now localOffsetMin) localOffsetMin month

/-- `DailyScheduler.getTomorrowScheduledTime`: `setDate(getDate() + 1)`
moves the local calendar date one day forward. -/
def getTomorrowScheduledTime (cfg : SchedulerConfig) (now localOffsetMin : Int)
    (month : Nat) : Except String Int :=
  getScheduledTimeForDate cfg (localDayStart now localOffsetMin + 86400000)
    localOffsetMin month

/-- The minute count drawn by `DailyScheduler.getRandomDelay`:
`Math.floor(Math.random() * (max - min + 1)) + min` with the random draw
`r` explicit. -/
def drawRandomMinutes (minv maxv : Int) (r : Rat) : Int :=
  ⌊r * ((maxv : Rat) - (minv : Rat) + 1)⌋ + minv

/-- `DailyScheduler.getRandomDelay` in milliseconds. -/
def getRandomDelay (minv maxv : Int) (r : Rat) : Int :=
  drawRandomMinutes minv maxv r * 60 * 1000

/-- `DailyScheduler.calculateNextRunTime` from the source: today's
scheduled instant if still in the future, else tomorrow's, plus the random
delay. -/
def calculateNextRunTime (cfg : SchedulerConfig) (now localOffsetMin : Int)
    (month : Nat) (r : Rat) : Except String Int :=
  match getTodayScheduledTime cfg now localOffsetMin month with
  | .error e => .error e
  | .ok todayScheduledTime =>
    if now ≥ todayScheduledTime then
      match getTomorrowScheduledTime cfg now localOffsetMin month with
      | .error e => .error e
      | .ok targetTime => .ok (targetTime + getRandomDelay cfg.randMin cfg.randMax r)
    else
      .ok (todayScheduledTime + getRandomDelay cfg.randMin cfg.randMax r)

/-- `DailyScheduler.shouldRunNow` from the source.  `today` is
`getTodayDateString()` and `todayScheduledTime` the value of
`getTodayScheduledTime()` (consulted only when `lastRunDate ≠ today`).
The retry branch tests JS truthiness of `state.lastFailureTime`: both
`undefined` (`none`) and the falsy number `0` (`some 0`) skip it. -/
def shouldRunNow (cfg : SchedulerConfig) (st : SchedulerState) (today : String)
    (now : Int) (todayScheduledTime : Int) : Bool :=
  if st.lastRunDate = "" then true
  else if st.lastRunDate ≠ today && now ≥ todayScheduledTime then true
  else if cfg.retryOnFailure.enabled && st.consecutiveFailures > 0 &&
      (st.lastFailureTime.getD 0 ≠ 0) then
    let retryDelay := cfg.retryOnFailure.retryDelayMinutes * 60 * 1000
    decide (now ≥ st.lastFailureTime.getD 0 + retryDelay)
  else false

/-- Observable effects of one `executeWithRetry` call: whether the main
script ran and with what result, whether the one-shot retry timer was
armed in the catch branch, and whether `scheduleNext()` was invoked. -/
structure ExecEffects where
  didRun : Bool
  runSucceeded : Bool
  retryTimerArmed : Bool
  scheduledNext : Bool
  deriving Repr, DecidableEq

/-- One call of `DailyScheduler.executeWithRetry` from the source, as a
pure transition.  `today` is `getTodayDateString()`, `now` the instant the
failure (if any) is recorded at, and `runSucceeds` tells whether the
awaited `executeMainScript()` returns or throws.  Mirrors, in order: the
re-entrancy guard, the already-completed-today check, the max-retries
ceiling, the success/failure branches, and the `finally` block that
re-arms `scheduleNext` only when `consecutiveFailures == 0` or the
ceiling is reached. -/
def executeWithRetry (cfg : SchedulerConfig) (st : SchedulerState) (today : String)
    (now : Int) (runSucceeds : Bool) : SchedulerState × ExecEffects :=
  if st.isRunning then
    (st, ⟨false, false, false, false⟩)
  else if st.lastRunDate = today && st.consecutiveFailures = 0 then
    (st, ⟨false, false, false, true⟩)
  else if cfg.retryOnFailure.enabled &&
      st.consecutiveFailures ≥ cfg.retryOnFailure.maxRetries then
    (st, ⟨false, false, false, true⟩)
  else if runSucceeds then
    let st' := { st with
      lastRunDate := today
      consecutiveFailures := 0
      lastFailureTime := none
      isRunning := false }
    (st', ⟨true, true, false, true⟩)
  else
    let cf' := st.consecutiveFailures + 1
    let st' := { st with
      consecutiveFailures := cf'
      lastFailureTime := some now
      isRunning := false }
    let armed := cfg.retryOnFailure.enabled && cf' < cfg.retryOnFailure.maxRetries
    let next := cf' = 0 || cf' ≥ cfg.retryOnFailure.maxRetries
    (st', ⟨true, false, armed, next⟩)

/-! ## Multi-pass orchestrator (`MicrosoftRewardsBot`, src/index.ts)

The external per-account work (`Desktop` then `Mobile`: login, dashboard
scraping, task workers) is abstracted as an oracle telling, for each
account and pass, whether the work throws and what it observes.  What the
orchestrator itself does with the shared mutable fields `pointsInitial`
and `accountResults` is taken from the source. -/

/-- What one account's external work does on one pass: whether the awaited
work throws, the dashboard value `Desktop` assigns to `this.pointsInitial`,
the value `getCurrentPoints()` returns at the end, and the number of
completed task groups. -/
structure WorkOutcome where
  throws : Bool
  dashboardPoints : Int
  finalPoints : Int
  tasks : Nat
  deriving Repr, DecidableEq

/-- Oracle giving each (account email, pass number) its work outcome. -/
def WorkSpec : Type := String → Nat → WorkOutcome

/-- The shared bot fields the orchestrator mutates:
`this.pointsInitial` (constructor value 0) and `this.accountResults`. -/
structure BotState where
  pointsInitial : Int
  accountResults : List AccountResult
  deriving Repr, DecidableEq

/-- Observable events of a run: the external work of one account starting
and ending (`ok` = no throw), and an `AccountResult` being appended to
`this.accountResults`. -/
inductive OrchEvent where
  | workStart : String → Nat → OrchEvent
  | workEnd : String → Nat → Bool → OrchEvent
  | recordCreated : String → Nat → OrchEvent
  deriving Repr, DecidableEq

/-- `accountResults.find(r => r.email === email)` followed by in-place
mutation: rewrite the first record with the given email, leave the list
unchanged when `find` returns `undefined`. -/
def updateFirst (email : String) (f : AccountResult → AccountResult) :
    List AccountResult → List AccountResult
  | [] => []
  | r :: rest =>
    if r.email = email then f r :: rest else r :: updateFirst email f rest

/-- The pass-1 update block at the end of `Desktop` (src/index.ts): when
`passNumber === 1`, look the account up in `this.accountResults` and set
`pointsBefore = this.pointsInitial`, `pointsAfter`,
`pointsGained = Math.max(0, pointsAfter - this.pointsInitial)` and
`tasksCompleted`.  (`Mobile` ends with the analogous block.) -/
def desktopFinalize (passNumber : Nat) (email : String) (pointsInitial pointsAfter : Int)
    (tasksCompleted : Nat) (results : List AccountResult) : List AccountResult :=
  if passNumber = 1 then
    updateFirst email (fun r =>
      { r with
        pointsBefore := pointsInitial
        pointsAfter := pointsAfter
        pointsGained := max 0 (pointsAfter - pointsInitial)
        tasksCompleted := tasksCompleted }) results
  else results

/-- One iteration of the `for (const account of accounts)` loop in
`runAllAccounts`: run the external work inside its try/catch (on success
`Desktop` assigns `this.pointsInitial` and runs its pass-1 update block; a
throw leaves the fields as they were), then — only when
`passNumber === 1` — append `createAccountResult(email,
this.pointsInitial || 0, this.pointsInitial || 0, 0, duration, success,
errorMessage)`.  Durations are abstracted to 0. -/
def processAccount (w : WorkSpec) (passNumber : Nat) (st : BotState) (email : String) :
    BotState × List OrchEvent :=
  let o := w email passNumber
  let pointsInitial' := if o.throws then st.pointsInitial else o.dashboardPoints
  let results' :=
    if o.throws then st.accountResults
    else desktopFinalize passNumber email o.dashboardPoints o.finalPoints o.tasks
      st.accountResults
  let results'' :=
    if passNumber = 1 then
      results' ++ [createAccountResult email pointsInitial' pointsInitial' 0 0
        (!o.throws) (if o.throws then some "Error" else none)]
    else results'
  (⟨pointsInitial', results''⟩,
    [.workStart email passNumber, .workEnd email passNumber (!o.throws)] ++
      (if passNumber = 1 then [.recordCreated email passNumber] else []))

/-- `MicrosoftRewardsBot.runAllAccounts`: the per-account loop of one pass,
accumulating state and the event trace. -/
def runAllAccounts (w : WorkSpec) (passNumber : Nat) :
    BotState → List String → BotState × List OrchEvent
  | st, [] => (st, [])
  | st, email :: rest =>
    let r := processAccount w passNumber st email
    let r2 := runAllAccounts w passNumber r.1 rest
    (r2.1, r.2 ++ r2.2)

/-- The retry-pass loop of `runTasks`:
`for (let retryNum = 1; retryNum <= additionalRetries; retryNum++)` with
`currentPass = retryNum + 1`.  Each pass body is awaited inside a
try/catch, so an account- or pass-level failure never stops later passes. -/
def runRetryPasses (w : WorkSpec) (accounts : List String) :
    Nat → Nat → BotState → BotState × List OrchEvent
  | _, 0, st => (st, [])
  | currentPass, n + 1, st =>
    let r := runAllAccounts w currentPass st accounts
    let r2 := runRetryPasses w accounts (currentPass + 1) n r.1
    (r2.1, r.2 ++ r2.2)

/-- The number of loop iterations `retryNum = 1 .. additionalRetries`
performs for an integer bound: none when the bound is ≤ 0. -/
def retryIterations (additionalRetries : Int) : Nat := additionalRetries.toNat

/-- `MicrosoftRewardsBot.runTasks` from the source:
`additionalRetries = this.config.dailyRetries || 0` (the identity on
integers, since `0 || 0 === 0`), `this.accountResults = []` reset,
mandatory pass 1, then the retry-pass loop.  `pointsInitial` starts at the
constructor value 0. -/
def runTasks (w : WorkSpec) (accounts : List String) (dailyRetries : Int) :
    BotState × List OrchEvent :=
  let additionalRetries := dailyRetries
  let st0 : BotState := ⟨0, []⟩
  let r := runAllAccounts w 1 st0 accounts
  let r2 := runRetryPasses w accounts 2 (retryIterations additionalRetries) r.1
  (r2.1, r.2 ++ r2.2)

/-- The (email, pass) projection of the work invocations in a trace. -/
def workStarts (evs : List OrchEvent) : List (String × Nat) :=
  evs.filterMap fun e =>
    match e with
    | .workStart email p => some (email, p)
    | _ => none

/-- The (email, pass) projection of the record creations in a trace. -/
def recordCreations (evs : List OrchEvent) : List (String × Nat) :=
  evs.filterMap fun e =>
    match e with
    | .recordCreated email p => some (email, p)
    | _ => none

/-! ## Theorems -/

/-- C8.  Loading the persisted scheduler state never throws (`loadState` is
a total function by construction: the parse failure is caught and logged):
a missing state file yields the default state with `lastRunDate = ""`,
`nextRunTime = 0`, `consecutiveFailures = 0`, `isRunning = false`, and a
malformed (unparseable) state file yields the same defaults after logging
a warning. -/
theorem c8_loadState_defaults :
    loadState .missing
      = { lastRunDate := "", nextRunTime := 0, consecutiveFailures := 0,
          isRunning := false, lastFailureTime := none }
  ∧ loadState .malformed
      = { lastRunDate := "", nextRunTime := 0, consecutiveFailures := 0,
          isRunning := false, lastFailureTime := none }
  ∧ loadState .missing = loadState .malformed := by
  refine ⟨rfl, rfl, rfl⟩

/-- C9.  For every list of `AccountResult` records, the summary built by
`createFinalSummary` satisfies `successfulAccounts + failedAccounts =
totalAccounts` and `totalPointsGained` equals the sum of the records'
`pointsGained` fields; and every record built by `createAccountResult` has
`pointsGained = max 0 (pointsAfter - pointsBefore)`, hence never
negative. -/
theorem c9_summary_invariants (results : List AccountResult)
    (retryPassesUsed startTime endTime : Int) :
    (createFinalSummary results retryPassesUsed startTime endTime).successfulAccounts
        + (createFinalSummary results retryPassesUsed startTime endTime).failedAccounts
      = (createFinalSummary results retryPassesUsed startTime endTime).totalAccounts
  ∧ (createFinalSummary results retryPassesUsed startTime endTime).totalPointsGained
      = (results.map (fun a => a.pointsGained)).sum
  ∧ ∀ email pointsBefore pointsAfter tasksCompleted dur success err,
      (createAccountResult email pointsBefore pointsAfter tasksCompleted dur
          success err).pointsGained
        = max 0 (pointsAfter - pointsBefore)
      ∧ 0 ≤ (createAccountResult email pointsBefore pointsAfter tasksCompleted dur
          success err).pointsGained := by
  refine ⟨?_, rfl, fun email pb pa tc d su err => ⟨rfl, le_max_left 0 _⟩⟩
  have h : (results.filter (fun a => a.success)).length ≤ results.length :=
    List.length_filter_le _ _
  simp only [createFinalSummary]
  omega

/-- C10.  For every `baseMs` and `variationPercent` argument (including
`baseMs` below 100 or negative, and extreme variation percentages) and
every random draw, `Util.humanizedWait` computes a delay that is a whole
number of milliseconds (`Int` codomain, via `Math.round`) and never less
than 100 milliseconds. -/
theorem c10_humanizedWait_at_least_100 (baseMs variationPercent r : Rat) :
    100 ≤ humanizedWait baseMs variationPercent r := by
  unfold humanizedWait
  exact le_max_left _ _

/-- C3 (code bug).  The claim says computing the scheduled instant never
throws for every configured timezone name.  The offsets for `'UTC'`,
`'Europe/Paris'`/`'CET'` and the unknown-name fallback are returned as
claimed, but `'America/New_York'` and `'EST'` read the variable `now`
inside its temporal dead zone (it is declared in the `'Europe/Paris'` case
of the same switch block and is uninitialized when execution enters at the
New York case), so `getConfiguredTimezoneOffset` — and with it
`getScheduledTimeForDate` — throws a `ReferenceError` for those names. -/
theorem c3_new_york_offset_throws :
    getConfiguredTimezoneOffset "America/New_York" 6 0
      = .error "ReferenceError: cannot access variable now before initialization"
  ∧ getConfiguredTimezoneOffset "EST" 0 (-60)
      = .error "ReferenceError: cannot access variable now before initialization"
  ∧ getScheduledTimeForDate
      ⟨true, 6, 0, "America/New_York", 5, 50, ⟨true, 3, 30⟩⟩ 0 0 6
      = .error "ReferenceError: cannot access variable now before initialization"
  ∧ getConfiguredTimezoneOffset "UTC" 6 0 = .ok 0
  ∧ getConfiguredTimezoneOffset "Europe/Paris" 6 0 = .ok (-7200000)
  ∧ getConfiguredTimezoneOffset "Europe/Paris" 11 0 = .ok (-3600000)
  ∧ getConfiguredTimezoneOffset "CET" 4 0 = .ok (-7200000)
  ∧ getConfiguredTimezoneOffset "Unknown/Zone" 3 (-120) = .ok 7200000 :=
  ⟨rfl, rfl, rfl, rfl, rfl, rfl, rfl, rfl⟩

/-- C1 (code bug).  The claim says the `AccountOutcome` record is created
before the account's pass-1 work begins (with `pointsBefore = pointsAfter
= 0`) and is updated with the final points and task count afterwards.  In
the source the record is appended only *after* the try/catch around the
work (`recordCreated` follows `workStart`/`workEnd` in the trace), with
`pointsBefore = pointsAfter = this.pointsInitial` as set during the work,
so the pass-1 update block in `Desktop`/`Mobile` never finds the record:
for work observing 100 points before and 150 after with 3 task groups the
stored record keeps 100/100, `pointsGained = 0`, `tasksCompleted = 0`.  A
throwing account still yields a record, and passes 2..N create none. -/
theorem c1_outcome_created_after_work :
    (runTasks (fun _ _ => ⟨false, 100, 150, 3⟩) ["a"] 0).2
      = [.workStart "a" 1, .workEnd "a" 1 true, .recordCreated "a" 1]
  ∧ (runTasks (fun _ _ => ⟨false, 100, 150, 3⟩) ["a"] 0).1.accountResults
      = [{ email := "a", pointsBefore := 100, pointsAfter := 100, pointsGained := 0,
           tasksCompleted := 0, executionDuration := 0, success := true,
           errorMessage := none }]
  ∧ (runTasks (fun _ _ => ⟨true, 0, 0, 0⟩) ["a"] 0).1.accountResults
      = [{ email := "a", pointsBefore := 0, pointsAfter := 0, pointsGained := 0,
           tasksCompleted := 0, executionDuration := 0, success := false,
           errorMessage := some "Error" }]
  ∧ recordCreations (runTasks (fun _ _ => ⟨false, 100, 150, 3⟩) ["a"] 2).2
      = [("a", 1)] := by
  decide

/-- C2 (code bug).  With `retryOnFailure = {enabled, maxRetries = 3,
retryDelayMinutes = 30}` and three consecutive scheduled-run failures the
state does end with `consecutiveFailures = 3` and no further retry timer
armed — but the claim's "suppressed only until the next calendar day's
scheduled instant" fails: on the next day `shouldRunNow` reports a run is
due, yet `executeWithRetry` returns at the max-retries gate without
running (only a successful run resets `consecutiveFailures`, and no run
can start while the gate holds), leaving the state unchanged.  The gate's
own log line says "exceeded for today", but nothing ever resets the
counter on a new day. -/
theorem c2_retry_cap_blocks_next_day :
    (let cfg : SchedulerConfig := ⟨true, 6, 0, "UTC", 5, 50, ⟨true, 3, 30⟩⟩
     let r1 := executeWithRetry cfg ⟨"2026-10-09", 0, 0, false, none⟩
       "2026-10-10" 1000 false
     let r2 := executeWithRetry cfg r1.1 "2026-10-10" 2000 false
     let r3 := executeWithRetry cfg r2.1 "2026-10-10" 3000 false
     let r4 := executeWithRetry cfg r3.1 "2026-10-11" 90000000 true
     r1.2.retryTimerArmed = true ∧ r2.2.retryTimerArmed = true
       ∧ r3.1.consecutiveFailures = 3 ∧ r3.2.retryTimerArmed = false
       ∧ shouldRunNow cfg r3.1 "2026-10-11" 90000000 86400000 = true
       ∧ r4.2.didRun = false ∧ r4.1 = r3.1) := by
  decide

theorem workStarts_append (a b : List OrchEvent) :
    workStarts (a ++ b) = workStarts a ++ workStarts b :=
  List.filterMap_append a b _

theorem workStarts_processAccount (w : WorkSpec) (p : Nat) (st : BotState)
    (email : String) :
    workStarts (processAccount w p st email).2 = [(email, p)] := by
  unfold processAccount workStarts
  by_cases h : p = 1 <;> simp [h]

theorem workStarts_runAllAccounts (w : WorkSpec) (p : Nat) :
    ∀ (accounts : List String) (st : BotState),
      workStarts (runAllAccounts w p st accounts).2
        = accounts.map (fun a => (a, p)) := by
  intro accounts
  induction accounts with
  | nil => intro st; rfl
  | cons e rest ih =>
    intro st
    unfold runAllAccounts
    rw [workStarts_append, workStarts_processAccount, ih]
    rfl

theorem flatMap_map_pass (accounts : List String) (m : Nat) (f g : Nat → Nat)
    (h : ∀ i, f i = g i) :
    ((List.range m).flatMap fun i => accounts.map (fun a => (a, f i)))
      = (List.range m).flatMap fun i => accounts.map (fun a => (a, g i)) := by
  rw [show f = g from funext h]

theorem workStarts_runRetryPasses (w : WorkSpec) (accounts : List String) :
    ∀ (n currentPass : Nat) (st : BotState),
      workStarts (runRetryPasses w accounts currentPass n st).2
        = (List.range n).flatMap (fun i => accounts.map (fun a => (a, currentPass + i))) := by
  intro n
  induction n with
  | zero => intro cp st; rfl
  | succ m ih =>
    intro cp st
    unfold runRetryPasses
    rw [workStarts_append, workStarts_runAllAccounts, ih, List.range_succ_eq_map]
    simp only [List.flatMap_cons, List.flatMap_map, Nat.add_zero]
    rw [flatMap_map_pass accounts m (fun i => cp + 1 + i) (fun i => cp + Nat.succ i)
      (fun i => show cp + 1 + i = cp + Nat.succ i by omega)]

/-- The work-invocation trace of a full `runTasks` run: one sweep of the
account list, in order, for each of the `1 + max(0, dailyRetries)` passes,
independently of the work outcomes. -/
theorem workStarts_runTasks (w : WorkSpec) (accounts : List String) (k : Int) :
    workStarts (runTasks w accounts k).2
      = (List.range (1 + k.toNat)).flatMap
          (fun p => accounts.map (fun a => (a, p + 1))) := by
  unfold runTasks retryIterations
  rw [workStarts_append, workStarts_runAllAccounts, workStarts_runRetryPasses]
  rw [show 1 + k.toNat = k.toNat + 1 from Nat.add_comm 1 k.toNat, List.range_succ_eq_map]
  simp only [List.flatMap_cons, List.flatMap_map, Nat.zero_add]
  rw [flatMap_map_pass accounts k.toNat (fun i => 2 + i) (fun i => Nat.succ i + 1)
    (fun i => show 2 + i = Nat.succ i + 1 by omega)]

theorem count_flatMap_const (xs : List String) (a : String) :
    ∀ N : Nat, (((List.range N).flatMap fun _ => xs).count a) = N * xs.count a := by
  intro N
  induction N with
  | zero => simp
  | succ m ih =>
    rw [List.range_succ, List.flatMap_append, List.count_append, ih]
    simp [Nat.succ_mul]

/-- C4 (counterexample).  The claim quantifies over every integer
`dailyRetries = k`, including negatives, and asserts `k + 1` invocations
per account.  For `k = -1` the claim demands 0 invocations, but the source
runs the mandatory pass 1 (the retry loop `retryNum = 1 .. -1` simply does
not execute), invoking the work once. -/
theorem c4_counterexample_negative_retries :
    workStarts (runTasks (fun _ _ => ⟨true, 0, 0, 0⟩) ["a"] (-1)).2 = [("a", 1)]
  ∧ ((workStarts (runTasks (fun _ _ => ⟨true, 0, 0, 0⟩) ["a"] (-1)).2).length : Int) = 1
  ∧ ¬ ((1 : Int) = (-1) + 1) := by
  refine ⟨by decide, by decide, by decide⟩

/-- C4 (amended).  For every integer `dailyRetries = k` the orchestrator
runs `1 + max(0, k)` passes and invokes the per-account execution
capability exactly `1 + max(0, k)` times per account (`k + 1` when
`k ≥ 0`), in account order within each pass, even when every invocation
throws: the invocation trace is one in-order sweep of the account list per
pass `1 .. 1 + max(0, k)`, for an arbitrary work oracle `w` (including the
always-throwing one), and per-account invocation counts follow. -/
theorem c4_amended_pass_and_invocation_counts (w : WorkSpec)
    (accounts : List String) (k : Int) :
    workStarts (runTasks w accounts k).2
      = (List.range (1 + k.toNat)).flatMap
          (fun p => accounts.map (fun a => (a, p + 1)))
  ∧ (∀ a : String,
      ((workStarts (runTasks w accounts k).2).map Prod.fst).count a
        = (1 + k.toNat) * accounts.count a)
  ∧ ((1 + k.toNat : Nat) : Int) = 1 + max 0 k := by
  refine ⟨workStarts_runTasks w accounts k, ?_, ?_⟩
  · intro a
    rw [workStarts_runTasks, List.map_flatMap]
    have h : (fun p => ((accounts.map fun a => (a, p + 1)).map Prod.fst))
        = fun _ : Nat => accounts := by
      funext p
      rw [List.map_map]
      exact List.map_id accounts
    rw [h, count_flatMap_const]
  · rw [Nat.cast_add, Nat.cast_one, Int.toNat_eq_max, max_comm]



theorem chunkGo_nil {α : Type} (cs fuel : Nat) : chunkGo cs fuel ([] : List α) = [] := by
  cases fuel <;> rfl

theorem chunkGo_flatten {α : Type} (cs : Nat) (hcs : 1 ≤ cs) :
    ∀ (fuel : Nat) (l : List α), l.length ≤ fuel → (chunkGo cs fuel l).flatten = l := by
  intro fuel
  induction fuel with
  | zero =>
    intro l hl
    rw [List.length_eq_zero.mp (Nat.le_zero.mp hl)]
    rfl
  | succ m ih =>
    intro l hl
    match l with
    | [] => rfl
    | a :: rest =>
      have hd : ((a :: rest).drop cs).length ≤ m := by
        rw [List.length_drop, List.length_cons]
        rw [List.length_cons] at hl
        omega
      rw [chunkGo, List.flatten_cons, ih ((a :: rest).drop cs) hd]
      exact List.take_append_drop cs (a :: rest)

theorem chunkGo_length_le {α : Type} (cs : Nat) (hcs : 1 ≤ cs) :
    ∀ (n fuel : Nat) (l : List α), l.length ≤ fuel → l.length ≤ n * cs →
      (chunkGo cs fuel l).length ≤ n := by
  intro n
  induction n with
  | zero =>
    intro fuel l _ hn
    rw [Nat.zero_mul] at hn
    rw [List.length_eq_zero.mp (Nat.le_zero.mp hn), chunkGo_nil]
    exact Nat.le_refl 0
  | succ m ih =>
    intro fuel l hl hn
    match fuel, l with
    | _, [] => rw [chunkGo_nil]; exact Nat.zero_le _
    | 0, a :: rest => exact absurd hl (by simp)
    | f + 1, a :: rest =>
      rw [chunkGo, List.length_cons]
      have h1 : ((a :: rest).drop cs).length ≤ f := by
        rw [List.length_drop, List.length_cons]
        rw [List.length_cons] at hl
        omega
      have h2 : ((a :: rest).drop cs).length ≤ m * cs := by
        have hn2 : (a :: rest).length ≤ m * cs + cs := by
          rw [← Nat.succ_mul]
          exact hn
        rw [List.length_drop]
        revert hn2
        generalize m * cs = t
        intro hn2
        omega
      exact Nat.succ_le_succ (ih f _ h1 h2)

theorem chunkGo_mem {α : Type} (cs : Nat) (hcs : 1 ≤ cs) :
    ∀ (fuel : Nat) (l : List α) (c : List α), c ∈ chunkGo cs fuel l →
      c ≠ [] ∧ c.length ≤ cs := by
  intro fuel
  induction fuel with
  | zero =>
    intro l c hc
    match l with
    | [] => rw [chunkGo_nil] at hc; exact absurd hc (List.not_mem_nil c)
    | a :: rest => exact absurd hc (List.not_mem_nil c)
  | succ m ih =>
    intro l c hc
    match l with
    | [] => rw [chunkGo_nil] at hc; exact absurd hc (List.not_mem_nil c)
    | a :: rest =>
      rw [chunkGo] at hc
      rcases List.mem_cons.mp hc with h | h
      · subst h
        constructor
        · have hlen : ((a :: rest).take cs).length = min cs (a :: rest).length :=
            List.length_take cs (a :: rest)
          intro hnil
          rw [hnil] at hlen
          rw [List.length_nil, List.length_cons] at hlen
          omega
        · rw [List.length_take]
          exact min_le_left cs _
      · exact ih _ c h

theorem chunkGo_getD {α : Type} (cs : Nat) (hcs : 1 ≤ cs) :
    ∀ (fuel : Nat) (l : List α) (i : Nat), l.length ≤ fuel →
      i + 1 < (chunkGo cs fuel l).length →
      ((chunkGo cs fuel l).getD i []).length = cs := by
  intro fuel
  induction fuel with
  | zero =>
    intro l i hl hi
    match l with
    | [] => rw [chunkGo_nil] at hi; exact absurd hi (by simp)
    | a :: rest => exact absurd hl (by simp)
  | succ m ih =>
    intro l i hl hi
    match l with
    | [] => rw [chunkGo_nil] at hi; exact absurd hi (by simp)
    | a :: rest =>
      rw [chunkGo] at hi ⊢
      rw [List.length_cons] at hi
      match i with
      | 0 =>
        rw [List.getD_cons_zero, List.length_take]
        have hrest : chunkGo cs m ((a :: rest).drop cs) ≠ [] := by
          intro hnil
          rw [hnil] at hi
          simp at hi
        have hdrop : (a :: rest).drop cs ≠ [] := by
          intro hnil
          rw [hnil, chunkGo_nil] at hrest
          exact hrest rfl
        have hlt : cs < (a :: rest).length := by
          by_contra hle
          exact hdrop (List.drop_eq_nil_of_le (Nat.le_of_not_lt hle))
        rw [List.length_cons] at hlt ⊢
        omega
      | j + 1 =>
        rw [List.getD_cons_succ]
        have hd : ((a :: rest).drop cs).length ≤ m := by
          rw [List.length_drop, List.length_cons]
          rw [List.length_cons] at hl
          omega
        exact ih _ j hd (by omega)

theorem ceil_div_mul_ge (len n : Nat) (hn : 1 ≤ n) :
    len ≤ n * ((len + n - 1) / n) := by
  have h := Nat.div_add_mod (len + n - 1) n
  have h2 : (len + n - 1) % n < n := Nat.mod_lt _ (by omega)
  revert h
  generalize n * ((len + n - 1) / n) = t
  intro h
  omega

/-- C5 (counterexample).  The claim says the distributor always yields
exactly `n` chunks.  With 4 accounts and `n = 3` the source computes
`chunkSize = ceil(4/3) = 2` and emits only 2 chunks. -/
theorem c5_counterexample_four_over_three :
    chunkArray ([1, 2, 3, 4] : List Nat) 3 = [[1, 2], [3, 4]]
  ∧ (chunkArray ([1, 2, 3, 4] : List Nat) 3).length = 2
  ∧ ¬ ((chunkArray ([1, 2, 3, 4] : List Nat) 3).length = 3)
  ∧ ([1, 2, 3, 4] : List Nat) ≠ [] ∧ 1 ≤ 3 := by
  refine ⟨by decide, by decide, by decide, by decide, by decide⟩

/-- C5 (amended).  For every account list and every `n ≥ 1`, the
distributor splits the list into *at most* `n` contiguous chunks of size
`ceil(len / n)` — every chunk is nonempty and at most that size, and every
chunk except possibly the last has exactly that size — whose concatenation
equals the input; in particular 7 accounts over `n = 3` yield chunk sizes
`[3, 3, 1]`. -/
theorem c5_amended_chunk_partition {α : Type} (arr : List α) (n : Nat)
    (hn : 1 ≤ n) :
    (chunkArray arr n).flatten = arr
  ∧ (chunkArray arr n).length ≤ n
  ∧ (∀ c ∈ chunkArray arr n, c ≠ [] ∧ c.length ≤ (arr.length + n - 1) / n)
  ∧ (∀ i, i + 1 < (chunkArray arr n).length →
      ((chunkArray arr n).getD i []).length = (arr.length + n - 1) / n)
  ∧ (chunkArray ([0, 1, 2, 3, 4, 5, 6] : List Nat) 3).map List.length = [3, 3, 1] := by
  have hn0 : n ≠ 0 := by omega
  match arr with
  | [] =>
    refine ⟨?_, ?_, ?_, ?_, by decide⟩
    · simp [chunkArray, hn0, chunkGo_nil]
    · simp [chunkArray, hn0, chunkGo_nil]
    · simp [chunkArray, hn0, chunkGo_nil]
    · simp [chunkArray, hn0, chunkGo_nil]
  | a :: rest =>
    have hcs : 1 ≤ ((a :: rest).length + n - 1) / n := by
      apply (Nat.one_le_div_iff (by omega)).mpr
      rw [List.length_cons]
      omega
    have harr : chunkArray (a :: rest) n
        = chunkGo (((a :: rest).length + n - 1) / n) (a :: rest).length (a :: rest) := by
      simp [chunkArray, hn0]
    refine ⟨?_, ?_, ?_, ?_, by decide⟩
    · rw [harr]
      exact chunkGo_flatten _ hcs _ _ (Nat.le_refl _)
    · rw [harr]
      exact chunkGo_length_le _ hcs n _ _ (Nat.le_refl _)
        (ceil_div_mul_ge (a :: rest).length n hn)
    · rw [harr]
      intro c hc
      exact chunkGo_mem _ hcs _ _ c hc
    · rw [harr]
      intro i hi
      exact chunkGo_getD _ hcs _ _ i (Nat.le_refl _) hi

/-- C5 (witness): the amended theorem applied to the 7-accounts,
3-clusters scenario. -/
theorem c5_witness_seven_over_three :
    (chunkArray ([0, 1, 2, 3, 4, 5, 6] : List Nat) 3).flatten = [0, 1, 2, 3, 4, 5, 6]
  ∧ (chunkArray ([0, 1, 2, 3, 4, 5, 6] : List Nat) 3).length ≤ 3 :=
  ⟨(c5_amended_chunk_partition ([0, 1, 2, 3, 4, 5, 6] : List Nat) 3 (by decide)).1,
   (c5_amended_chunk_partition ([0, 1, 2, 3, 4, 5, 6] : List Nat) 3 (by decide)).2.1⟩

/-- The spec's formula for `shouldRunNow`, written from the spec's words
for comparison with the source: true iff no prior run date is recorded;
or the recorded date differs from today and now is at or past today's
scheduled instant; or retry-on-failure is enabled, `consecutiveFailures >
0`, and now is at or past `lastFailureTime` plus the retry delay (the
last disjunct requires a recorded `lastFailureTime`; the spec formula
places no other condition on it). -/
def specShouldRunNow (cfg : SchedulerConfig) (st : SchedulerState) (today : String)
    (now : Int) (todayScheduledTime : Int) : Bool :=
  st.lastRunDate = "" ||
  (st.lastRunDate ≠ today && now ≥ todayScheduledTime) ||
  (cfg.retryOnFailure.enabled && st.consecutiveFailures > 0 &&
    (match st.lastFailureTime with
     | some t => decide (now ≥ t + cfg.retryOnFailure.retryDelayMinutes * 60 * 1000)
     | none => false))

/-- C6 (counterexample).  The claim's formula and the source disagree on a
state whose `lastFailureTime` is the recorded instant 0 (epoch): with
retry-on-failure enabled, one failure recorded at instant 0, a 1-minute
retry delay and `now = 60000`, the claimed condition holds, but the
source's truthiness test `if (... && this.state.lastFailureTime)` treats
the falsy number 0 as unset and returns false. -/
theorem c6_counterexample_epoch_failure_time :
    specShouldRunNow ⟨true, 6, 0, "UTC", 5, 50, ⟨true, 3, 1⟩⟩
      ⟨"2026-10-11", 0, 1, false, some 0⟩ "2026-10-11" 60000 999999999999 = true
  ∧ shouldRunNow ⟨true, 6, 0, "UTC", 5, 50, ⟨true, 3, 1⟩⟩
      ⟨"2026-10-11", 0, 1, false, some 0⟩ "2026-10-11" 60000 999999999999 = false := by
  refine ⟨by decide, by decide⟩

/-- The amended formula: like `specShouldRunNow` but the retry disjunct
additionally requires the recorded `lastFailureTime` to be nonzero,
matching the source's JS truthiness test. -/
def amendedShouldRunNow (cfg : SchedulerConfig) (st : SchedulerState) (today : String)
    (now : Int) (todayScheduledTime : Int) : Bool :=
  st.lastRunDate = "" ||
  (st.lastRunDate ≠ today && now ≥ todayScheduledTime) ||
  (cfg.retryOnFailure.enabled && st.consecutiveFailures > 0 &&
    (match st.lastFailureTime with
     | some t =>
       t ≠ 0 && decide (now ≥ t + cfg.retryOnFailure.retryDelayMinutes * 60 * 1000)
     | none => false))

/-- C6 (amended).  `shouldRunNow` returns true exactly when: no prior run
date is recorded; or the recorded date differs from today and now is at
or past today's scheduled instant; or retry-on-failure is enabled,
`consecutiveFailures > 0`, and `lastFailureTime` is recorded as a
*nonzero* instant with now at or past it plus the retry delay
(`amendedShouldRunNow`).  In particular it is true on a fresh state
(empty `lastRunDate`, any other fields) and false immediately after a
successful run on the same calendar date (the success branch of
`executeWithRetry` leaves exactly `lastRunDate = today`,
`consecutiveFailures = 0`, `lastFailureTime` cleared). -/
theorem c6_amended_shouldRunNow_characterization :
    (∀ (cfg : SchedulerConfig) (st : SchedulerState) (today : String) (now sched : Int),
      shouldRunNow cfg st today now sched = amendedShouldRunNow cfg st today now sched)
  ∧ (∀ (cfg : SchedulerConfig) (nrt : Int) (cf : Nat) (run : Bool) (lft : Option Int)
        (today : String) (now sched : Int),
      shouldRunNow cfg ⟨"", nrt, cf, run, lft⟩ today now sched = true)
  ∧ (∀ (cfg : SchedulerConfig) (nrt : Int) (today : String) (now sched : Int),
      today ≠ "" →
      shouldRunNow cfg ⟨today, nrt, 0, false, none⟩ today now sched = false) := by
  refine ⟨?_, ?_, ?_⟩
  · intro cfg st today now sched
    rcases st with ⟨lrd, nrt, cf, run, lft⟩
    cases lft with
    | none =>
      simp only [shouldRunNow, amendedShouldRunNow, Option.getD_none]
      split_ifs with h1 h2 h3 <;> simp_all
    | some t =>
      simp only [shouldRunNow, amendedShouldRunNow, Option.getD_some]
      split_ifs with h1 h2 h3 <;> simp_all
  · intro cfg nrt cf run lft today now sched
    simp [shouldRunNow]
  · intro cfg nrt today now sched htoday
    simp [shouldRunNow, htoday]

/-- C6 (witness): the amended characterization applied at concrete inputs
for each part. -/
theorem c6_witness :
    shouldRunNow ⟨true, 6, 0, "UTC", 5, 50, ⟨true, 3, 30⟩⟩
      ⟨"2026-10-11", 0, 0, false, none⟩ "2026-10-11" 5 7 = false
  ∧ (shouldRunNow ⟨true, 6, 0, "UTC", 5, 50, ⟨true, 3, 30⟩⟩
      ⟨"", 0, 0, false, none⟩ "2026-10-11" 5 7 = true) :=
  ⟨c6_amended_shouldRunNow_characterization.2.2
      ⟨true, 6, 0, "UTC", 5, 50, ⟨true, 3, 30⟩⟩ 0 "2026-10-11" 5 7 (by decide),
   c6_amended_shouldRunNow_characterization.2.1
      ⟨true, 6, 0, "UTC", 5, 50, ⟨true, 3, 30⟩⟩ 0 0 false none "2026-10-11" 5 7⟩

/-- The spec's jitter contract: for `0 ≤ r < 1` and `min ≤ max`, the drawn
minute count `Math.floor(r * (max - min + 1)) + min` lies in
`[min, max]` inclusive. -/
theorem drawRandomMinutes_bounds (minv maxv : Int) (r : Rat)
    (hr0 : 0 ≤ r) (hr1 : r < 1) (hle : minv ≤ maxv) :
    minv ≤ drawRandomMinutes minv maxv r ∧ drawRandomMinutes minv maxv r ≤ maxv := by
  unfold drawRandomMinutes
  have hn : (0 : Rat) < (maxv : Rat) - (minv : Rat) + 1 := by
    have : ((minv : Rat)) ≤ (maxv : Rat) := by exact_mod_cast hle
    linarith
  have hlow : 0 ≤ ⌊r * ((maxv : Rat) - (minv : Rat) + 1)⌋ := by
    rw [Int.le_floor]
    push_cast
    exact mul_nonneg hr0 (le_of_lt hn)
  have hhigh : ⌊r * ((maxv : Rat) - (minv : Rat) + 1)⌋ < maxv - minv + 1 := by
    rw [Int.floor_lt]
    push_cast
    exact mul_lt_of_lt_one_left hn hr1
  omega

/-- C7 (counterexample).  The scheduler's validation accepts negative
jitter minutes (`min < max` is its only jitter check).  With
`dailyRunTime = 12:00`, timezone UTC, jitter range `[-2880, 0]` and a draw
of the minimum, a clock at 13:00 local time yields a "next run time" two
days earlier — not strictly greater than now as claimed. -/
theorem c7_counterexample_negative_jitter :
    validateConfig ⟨true, 12, 0, "UTC", -2880, 0, ⟨false, 3, 30⟩⟩ = true
  ∧ (0 : Rat) ≤ 0 ∧ (0 : Rat) < 1
  ∧ drawRandomMinutes (-2880) 0 0 = -2880
  ∧ calculateNextRunTime ⟨true, 12, 0, "UTC", -2880, 0, ⟨false, 3, 30⟩⟩
      46800000 0 5 0 = Except.ok (-43200000)
  ∧ ¬ ((46800000 : Int) < -43200000) := by
  refine ⟨by decide, le_refl 0, by norm_num, ?_, ?_, by decide⟩
  · unfold drawRandomMinutes
    norm_num
  · unfold calculateNextRunTime getTodayScheduledTime getTomorrowScheduledTime
      getScheduledTimeForDate getConfiguredTimezoneOffset localDayStart
      getRandomDelay drawRandomMinutes hourMs
    norm_num

/-- C7 (amended).  For every configuration accepted by the scheduler's
validation and every clock instant, *provided additionally* that the
jitter minimum is nonnegative and that the configured time-of-day plus
the resolved timezone offset is nonnegative (true e.g. for UTC, whose
offset is 0), the computed next run time — today's scheduled instant if
still in the future, otherwise tomorrow's, plus a jitter drawn from
`[min, max]` whole minutes — is strictly greater than now. -/
theorem c7_amended_next_run_future (cfg : SchedulerConfig)
    (now localOffsetMin off v : Int) (month : Nat) (r : Rat)
    (hval : validateConfig cfg = true)
    (hmin : 0 ≤ cfg.randMin)
    (hr0 : 0 ≤ r) (hr1 : r < 1)
    (hoff : getConfiguredTimezoneOffset cfg.timezone month localOffsetMin = Except.ok off)
    (hday : 0 ≤ (cfg.hours : Int) * hourMs + (cfg.minutes : Int) * 60 * 1000 + off)
    (hv : calculateNextRunTime cfg now localOffsetMin month r = Except.ok v) :
    now < v := by
  have hminmax : cfg.randMin < cfg.randMax := by
    simp only [validateConfig, Bool.and_eq_true, decide_eq_true_eq] at hval
    exact hval.2
  have hj := drawRandomMinutes_bounds cfg.randMin cfg.randMax r hr0 hr1
    (le_of_lt hminmax)
  have hjms : 0 ≤ getRandomDelay cfg.randMin cfg.randMax r := by
    unfold getRandomDelay
    have h0 : 0 ≤ drawRandomMinutes cfg.randMin cfg.randMax r := le_trans hmin hj.1
    have h60 : (0 : Int) ≤ 60 := by norm_num
    exact mul_nonneg (mul_nonneg h0 h60) (by norm_num)
  have hdiv : now + localOffsetMin * 60 * 1000
      < ((now + localOffsetMin * 60 * 1000) / 86400000 + 1) * 86400000 :=
    Int.lt_ediv_add_one_mul_self _ (by norm_num)
  unfold calculateNextRunTime getTodayScheduledTime getTomorrowScheduledTime
    getScheduledTimeForDate localDayStart getRandomDelay hourMs at hv
  unfold getRandomDelay at hjms
  unfold hourMs at hday
  rw [hoff] at hv
  dsimp only [] at hv
  split_ifs at hv with hc
  · rw [Except.ok.injEq] at hv
    omega
  · rw [Except.ok.injEq] at hv
    omega

/-- C7 (witness): the amended theorem applied to a UTC configuration with
jitter `[5, 50]`, draw `r = 0`, at `now = 0`. -/
theorem c7_witness :
    calculateNextRunTime ⟨true, 6, 0, "UTC", 5, 50, ⟨true, 3, 30⟩⟩ 0 0 5 0
      = Except.ok 21900000
  ∧ (0 : Int) < 21900000 := by
  have hv : calculateNextRunTime ⟨true, 6, 0, "UTC", 5, 50, ⟨true, 3, 30⟩⟩ 0 0 5 0
      = Except.ok 21900000 := by
    unfold calculateNextRunTime getTodayScheduledTime getTomorrowScheduledTime
      getScheduledTimeForDate getConfiguredTimezoneOffset localDayStart
      getRandomDelay drawRandomMinutes hourMs
    norm_num
  exact ⟨hv, c7_amended_next_run_future ⟨true, 6, 0, "UTC", 5, 50, ⟨true, 3, 30⟩⟩
    0 0 0 21900000 5 0 (by decide) (by decide) (le_refl 0) (by norm_num) rfl
    (by decide) hv⟩
